import Mathlib

/-
Shallow embedding of the hypermix mix-execution pipeline
(src "AI Context Builder": createFileHelpers, buildRepomixArgs, runRepomix,
modifyIgnoreFile, updateIgnoreFiles, readFileStreamChunks, fetchAllFileTokens,
countTokensInFiles, and the per-mix loop of main).

JavaScript strings are modelled as `List Char` (`Str`); the file system as an
association list from path to content; the external subprocess and the JSONC
parser (external libraries) as parameters of an `Env` structure.
-/

set_option autoImplicit false

namespace Hypermix

/-- Strings of the JS runtime, modelled as lists of characters. -/
abbrev Str := List Char

/-- Whitespace test used by JS `String.prototype.trim` (restricted to the
whitespace characters that can occur in the modelled data). -/
def isWs (c : Char) : Bool :=
  c = ' ' || c = '\n' || c = '\t' || c = '\r'

/-- JS `s.trim()`. -/
def trimStr (s : Str) : Str :=
  ((s.dropWhile isWs).reverse.dropWhile isWs).reverse

/-- JS `s.split(sep)` for a single-character separator. -/
def splitOnChar (c : Char) : Str → List Str
  | [] => [[]]
  | a :: rest =>
    if a = c then [] :: splitOnChar c rest
    else
      match splitOnChar c rest with
      | [] => [[a]]
      | w :: ws => (a :: w) :: ws

/-- Boolean test that `p` is a prefix of `s` (JS `s.startsWith(p)` and the
anchor step of substring search). -/
def isPre : Str → Str → Bool
  | [], _ => true
  | _ :: _, [] => false
  | a :: as, b :: bs => decide (a = b) && isPre as bs

/-- JS `s.includes(pat)`. -/
def containsSub (pat : Str) : Str → Bool
  | [] => decide (pat = [])
  | c :: rest => isPre pat (c :: rest) || containsSub pat rest

/-- JS `s.replace(pat, repl)` with a plain-string pattern: replaces the first
occurrence only; returns `s` unchanged when there is none. -/
def replaceFirst (pat repl : Str) : Str → Str
  | [] => if pat = [] then repl else []
  | c :: rest =>
    if isPre pat (c :: rest) then repl ++ (c :: rest).drop pat.length
    else c :: replaceFirst pat repl rest

/-- ASCII lower-casing of one character (JS `toLowerCase` on the ASCII range). -/
def lowerChar (c : Char) : Char :=
  if 'A' ≤ c ∧ c ≤ 'Z' then Char.ofNat (c.toNat + 32) else c

def isUpperC (c : Char) : Bool := decide ('A' ≤ c) && decide (c ≤ 'Z')

def isLowerC (c : Char) : Bool := decide ('a' ≤ c) && decide (c ≤ 'z')

def isDigitC (c : Char) : Bool := decide ('0' ≤ c) && decide (c ≤ '9')

/-- Fuel-driven worker for `splitWords`: the ASCII fragment of the
`@std/text` word splitter (capitalized words, acronym runs with the
look-ahead backtracking of the acronym regex, lowercase runs, digit runs;
other characters are separators). -/
def splitWordsAux : Nat → Str → List Str
  | 0, _ => []
  | _ + 1, [] => []
  | fuel + 1, c :: rest =>
    if isLowerC c then
      ((c :: rest).takeWhile isLowerC) ::
        splitWordsAux fuel ((c :: rest).dropWhile isLowerC)
    else if isUpperC c then
      match rest with
      | r :: _ =>
        if isLowerC r then
          (c :: rest.takeWhile isLowerC) ::
            splitWordsAux fuel (rest.dropWhile isLowerC)
        else
          let run := (c :: rest).takeWhile isUpperC
          let after := (c :: rest).dropWhile isUpperC
          match after with
          | a :: _ =>
            if isLowerC a then
              run.dropLast :: splitWordsAux fuel (run.getLastD c :: after)
            else run :: splitWordsAux fuel after
          | [] => run :: splitWordsAux fuel after
      | [] => [[c]]
    else if isDigitC c then
      ((c :: rest).takeWhile isDigitC) ::
        splitWordsAux fuel ((c :: rest).dropWhile isDigitC)
    else splitWordsAux fuel rest

/-- ASCII model of `@std/text` `splitToWords`. -/
def splitWords (s : Str) : List Str := splitWordsAux s.length s

/-- Model of `@std/text` `toKebabCase`: trim, split into words, lower-case
each word, join with hyphens. -/
def toKebab (s : Str) : Str :=
  List.intercalate ['-'] ((splitWords (trimStr s)).map (fun w => w.map lowerChar))

/-- Parsed path pieces, as in `@std/path` `parse` (posix): everything before
the last slash, the base name without extension, and the extension
(including its dot). -/
structure PathParts where
  dir : Str
  name : Str
  ext : Str
deriving DecidableEq

/-- Helper of `parsePath`: the base name (text after the last slash),
reversed. -/
def baseRevOf (p : Str) : Str := p.reverse.takeWhile (fun c => !decide (c = '/'))

/-- Helper of `parsePath`: the text before the last slash (empty when there
is none). -/
def dirOf (p : Str) : Str :=
  ((p.reverse.dropWhile (fun c => !decide (c = '/'))).drop 1).reverse

/-- Model of `@std/path` `parse` (posix) restricted to the `dir`/`name`/`ext`
fields the code uses: the extension starts at the last dot of the base name
provided that dot is not its first character. -/
def parsePath (p : Str) : PathParts :=
  let base := (baseRevOf p).reverse
  let afterDot := (baseRevOf p).takeWhile (fun c => !decide (c = '.'))
  if afterDot.length + 1 < base.length then
    { dir := dirOf p
      name := base.take (base.length - afterDot.length - 1)
      ext := base.drop (base.length - afterDot.length - 1) }
  else { dir := dirOf p, name := base, ext := [] }

/-- Model of `@std/path` `join` on two segments (inputs are assumed already
normalized: the theorems put no-trailing-slash/nonempty hypotheses where the
real `join` would normalize). -/
def pjoin (a b : Str) : Str :=
  if a = [] then b else if b = [] then a else a ++ '/' :: b

/-- `createFileHelpers().kebabFilename`: rewrite only the base name (without
extension) of a path to kebab case. -/
def kebabFilename (p : Str) : Str :=
  let parsed := parsePath p
  pjoin parsed.dir (toKebab parsed.name ++ parsed.ext)

/-- `createFileHelpers().outputFromGithub`. -/
def outputFromGithub (url : Str) : Str :=
  if !containsSub ("github.com".data) url then "codebase.xml".data
  else
    let parts := splitOnChar '/' (replaceFirst ("https://github.com/".data) [] url)
    if 2 ≤ parts.length then
      parts.getD 0 [] ++ '/' :: (parts.getD 1 [] ++ ".xml".data)
    else "codebase.xml".data

example : toKebab ("repoA".data) = "repo-a".data := by decide

example : toKebab ("codebase".data) = "codebase".data := by decide

example : kebabFilename (".hypermix/owner/repoA.xml".data)
    = ".hypermix/owner/repo-a.xml".data := by decide

example : outputFromGithub ("https://github.com/owner/repoA".data)
    = "owner/repoA.xml".data := by decide

/-- One mix descriptor (`RepomixConfig` in src/types.ts). `none` models an
absent (`undefined`) field; the `include` field is renamed `includeP` because
`include` is reserved in Lean. -/
structure RepomixConfig where
  remote : Option Str := none
  includeP : Option (List Str) := none
  ignore : Option (List Str) := none
  output : Option Str := none
  config : Option Str := none
  repomixConfig : Option Str := none
  extraFlags : Option (List Str) := none
deriving DecidableEq

/-- JS truthiness of an optional string: `undefined` and the empty string are
falsy; a nonempty string is truthy (and is the value used). -/
def jsTruthy : Option Str → Option Str
  | none => none
  | some s => if s = [] then none else some s

/-- `config.config ?? config.repomixConfig`: `??` only skips
`null`/`undefined`, so an empty-string `config` field still wins. -/
def configPathOf (c : RepomixConfig) : Option Str :=
  match c.config with
  | some s => some s
  | none => c.repomixConfig

/-- The `fullUrl` computation of `buildRepomixArgs`:
`remoteUrl && !remoteUrl.startsWith('http') ? 'https://github.com/'+remoteUrl : remoteUrl`.
A falsy remote (absent or empty) is collapsed to `none`, which matches every
later use site (`if (fullUrl)`, `fullUrl ? _ : _`, `fullUrl?.includes`,
`fullUrl || 'local codebase'`). -/
def fullUrlOf (remote : Option Str) : Option Str :=
  match remote with
  | none => none
  | some r =>
    if r = [] then none
    else if isPre ("http".data) r then some r
    else some ("https://github.com/".data ++ r)

/-- `REPOMIX_DEFAULT_FLAGS` from src/constants.ts. -/
def REPOMIX_DEFAULT_FLAGS : List Str :=
  ["--remove-empty-lines".data, "--compress".data, "--quiet".data,
   "--parsable-style".data]

/-- `REPOMIX_BOOLEAN_FLAGS` from src/constants.ts. -/
def REPOMIX_BOOLEAN_FLAGS : List Str :=
  ["--version".data, "--stdout".data, "--parsable-style".data,
   "--compress".data, "--output-show-line-numbers".data, "--copy".data,
   "--no-file-summary".data, "--no-directory-structure".data,
   "--remove-comments".data, "--remove-empty-lines".data,
   "--include-empty-directories".data, "--include-diffs".data,
   "--no-git-sort-by-changes".data, "--no-gitignore".data,
   "--no-default-patterns".data, "--global".data, "--no-security-check".data,
   "--mcp".data, "--verbose".data, "--quiet".data]

/-- The file system: an association list from path to text content. -/
abbrev FS := List (Str × Str)

/-- Content of a file, `none` when the path does not exist (a read on a
missing path throws in the runtime; the callers' `try`/`catch` or `exists`
guards are modelled at each use site). -/
def fsGet : FS → Str → Option Str
  | [], _ => none
  | (q, d) :: rest, p => if q = p then some d else fsGet rest p

/-- `@std/fs` `exists`. -/
def fsExists (fs : FS) (p : Str) : Bool :=
  (fsGet fs p).isSome

/-- `Deno.writeTextFile`: create or overwrite. -/
def fsSet : FS → Str → Str → FS
  | [], p, c => [(p, c)]
  | (q, d) :: rest, p, c =>
    if q = p then (q, c) :: rest else (q, d) :: fsSet rest p c

/-- Result of a JSONC parse, restricted to the shapes the code inspects.
`undefinedV` stands for `undefined` or `null` (property access on either throws,
landing in the surrounding `catch`); `other` is any remaining value with its
JS truthiness. -/
inductive Jsonish
  | undefinedV
  | str (s : Str)
  | obj (fields : List (Str × Jsonish))
  | other (truthy : Bool)

/-- JS property access `j.k` / `j?.k` on a parsed value: `undefined` unless
`j` is an object with the field. -/
def jget : Jsonish → Str → Jsonish
  | .obj fields, k =>
    match fields.find? (fun e => decide (e.1 = k)) with
    | some e => e.2
    | none => .undefinedV
  | _, _ => .undefinedV

/-- JS truthiness of a parsed value. -/
def jtruthy : Jsonish → Bool
  | .undefinedV => false
  | .str s => !s.isEmpty
  | .obj _ => true
  | .other b => b

/-- JS `a || b`. -/
def jsOr (a b : Jsonish) : Jsonish := if jtruthy a then a else b

/-- Behaviour of one subprocess invocation: the spawn either throws (for
example the executable is missing) or exits, reporting success and the files
it created. -/
inductive SpawnOutcome
  | throws
  | exits (success : Bool) (created : List (Str × Str))

/-- External collaborators: the `jsonc-parser` library and the subprocess
runtime (`Deno.Command` + repomix itself). -/
structure Env where
  parseJsonc : Str → Jsonish
  run : List Str → SpawnOutcome

/-- What `buildRepomixArgs` returns. -/
structure BuildResult where
  args : List Str
  fullUrl : Option Str
  outputPath : Str
deriving DecidableEq

/-- `buildRepomixArgs` (src part_008 lines 70-144). Note that the source
pushes `--output` unconditionally ("Always add the output path"). -/
def buildRepomixArgs (env : Env) (fs : FS) (config : RepomixConfig)
    (outputPath : Str) : BuildResult :=
  let fullUrl := fullUrlOf config.remote
  let args1 := ["repomix".data] ++
    (match fullUrl with
     | some u => ["--remote".data, u]
     | none => [])
  let includes := config.includeP.getD []
  let finalIncludes := if includes.isEmpty then ["**/*".data] else includes
  let args2 := args1 ++ ["--include".data, List.intercalate [','] finalIncludes]
  let ignores := config.ignore.getD []
  let args3 := args2 ++
    (if ignores.isEmpty then []
     else ["--ignore".data, List.intercalate [','] ignores])
  let configPath := jsTruthy (configPathOf config)
  let args4 := args3 ++
    (match configPath with
     | some p => ["--config".data, p]
     | none => [])
  let args5 := args4 ++ REPOMIX_DEFAULT_FLAGS
  let args6 := args5 ++
    (match config.extraFlags with
     | some fl => if fl.isEmpty then [] else fl
     | none => [])
  let finalOutputPath :=
    match configPath with
    | some p =>
      match fsGet fs p with
      | none => pjoin outputPath ("codebase.xml".data)
      | some content =>
        match env.parseJsonc content with
        | .undefinedV => pjoin outputPath ("codebase.xml".data)
        | j =>
          let configOutputPath :=
            jsOr (jget (jget j ("output".data)) ("filePath".data))
              (jsOr (jget j ("outputPath".data)) (jget j ("output".data)))
          match configOutputPath with
          | .str s => s
          | _ => pjoin outputPath ("codebase.xml".data)
    | none =>
      kebabFilename
        (match jsTruthy config.output with
         | some o => pjoin outputPath o
         | none =>
           match fullUrl with
           | some u => pjoin outputPath (outputFromGithub u)
           | none => pjoin outputPath ("codebase.xml".data))
  { args := args6 ++ ["--output".data, finalOutputPath]
    fullUrl := fullUrl
    outputPath := finalOutputPath }

/-- The value `runRepomix` resolves with on success
(`{success: true, repoName, outputPath}`). -/
structure MixResult where
  success : Bool
  repoName : Str
  outputPath : Str
deriving DecidableEq

/-- Validation step 1 of `runRepomix`: a truthy `repomixConfig` field naming a
path that does not exist fails the mix (note: only the `repomixConfig` field
is checked here, not `config`). -/
def repomixConfigMissing (fs : FS) (c : RepomixConfig) : Bool :=
  match jsTruthy c.repomixConfig with
  | some rc => !fsExists fs rc
  | none => false

/-- Validation step 2 of `runRepomix`: a nonempty `extraFlags` list with an
entry outside `REPOMIX_BOOLEAN_FLAGS` fails the mix. -/
def extraFlagsInvalid (c : RepomixConfig) : Bool :=
  match c.extraFlags with
  | some fl =>
    !fl.isEmpty &&
      !(fl.filter (fun f => !REPOMIX_BOOLEAN_FLAGS.contains f)).isEmpty
  | none => false

/-- Files created by the subprocess are written into the file system. -/
def applyCreated (fs : FS) (created : List (Str × Str)) : FS :=
  created.foldl (fun acc e => fsSet acc e.1 e.2) fs

/-- `fullUrl.split('/').pop()` followed by `repoName || 'unknown'`. -/
def repoNameOf (fullUrl : Option Str) : Str :=
  let n :=
    match fullUrl with
    | some u =>
      if containsSub ("github.com".data) u then (splitOnChar '/' u).getLastD []
      else u
    | none => "local codebase".data
  if n = [] then "unknown".data else n

/-- `runRepomix` (src part_008 lines 146-215). The result triple is the
resolved value (`Except.error ()` when an uncaught exception — a throwing
spawn — propagates, otherwise `Option MixResult` with `none` for the `null`
failure returns), the list of subprocess invocations made, and the file
system afterwards. -/
def runRepomix (env : Env) (fs : FS) (config : RepomixConfig)
    (outputPath : Str) : Except Unit (Option MixResult) × List (List Str) × FS :=
  if repomixConfigMissing fs config then (Except.ok none, [], fs)
  else if extraFlagsInvalid config then (Except.ok none, [], fs)
  else
    let b := buildRepomixArgs env fs config outputPath
    match env.run b.args with
    | .throws => (Except.error (), [b.args], fs)
    | .exits success created =>
      let fs' := applyCreated fs created
      if !success then (Except.ok none, [b.args], fs')
      else if !fsExists fs' b.outputPath then (Except.ok none, [b.args], fs')
      else
        (Except.ok (some
          { success := true, repoName := repoNameOf b.fullUrl
            outputPath := b.outputPath }), [b.args], fs')

/-- The per-mix loop of `main` (src part_008 lines 518-525): run each mix in
order, pushing `{repoName, outputPath}` for each successful result. There is
no `try`/`catch` around the loop body, so an uncaught exception ends the loop
(and the run). -/
def processMixes (env : Env) : FS → List RepomixConfig → Str →
    Except Unit (List MixResult) × FS
  | fs, [], _ => (Except.ok [], fs)
  | fs, c :: rest, out =>
    match runRepomix env fs c out with
    | (Except.error (), _, fs') => (Except.error (), fs')
    | (Except.ok r, _, fs') =>
      match processMixes env fs' rest out with
      | (Except.error (), fs'') => (Except.error (), fs'')
      | (Except.ok rs, fs'') =>
        (Except.ok (match r with | some m => m :: rs | none => rs), fs'')

/-- Specification-side view of the same loop: the outcome of every mix, in
input order (`some` for a success, `none` for a converted failure), with the
same sequential file-system threading. Used to state order preservation. -/
def runAllOutcomes (env : Env) : FS → List RepomixConfig → Str →
    Except Unit (List (Option MixResult)) × FS
  | fs, [], _ => (Except.ok [], fs)
  | fs, c :: rest, out =>
    match runRepomix env fs c out with
    | (Except.error (), _, fs') => (Except.error (), fs')
    | (Except.ok r, _, fs') =>
      match runAllOutcomes env fs' rest out with
      | (Except.error (), fs'') => (Except.error (), fs'')
      | (Except.ok rs, fs'') => (Except.ok (r :: rs), fs'')

/-- Fuel-driven worker for `chunked` (every step consumes at least one
character, so `s.length` fuel always suffices). -/
def chunkedAux : Nat → Str → List Str
  | 0, _ => []
  | _ + 1, [] => []
  | fuel + 1, c :: rest =>
    (c :: rest).take 8192 :: chunkedAux fuel ((c :: rest).drop 8192)

/-- `readFileStreamChunks` (src part_008 lines 296-326) seen end-to-end:
the decoded text is emitted as chunks of 8192 characters, with a final
shorter chunk for the (nonempty) remainder. -/
def chunked (s : Str) : List Str := chunkedAux s.length s

/-- Per-file token total of `fetchAllFileTokens`: the pluggable tokenizer
applied per chunk and summed. -/
def fileTokens (tok : Str → Nat) (content : Str) : Nat :=
  ((chunked content).map tok).sum

/-- `basename(filePath, extname(filePath))`. -/
def basenameNoExt (p : Str) : Str := (parsePath p).name

/-- JS object property assignment (`result[filename] = tokens`): an existing
key keeps its position and gets the new value, a fresh key is appended. This
is the insertion record only; the order in which JS later enumerates the
object's keys (object spread, `Object.entries`) is modelled by `jsEntries`. -/
def upsert : List (Str × Nat) → Str → Nat → List (Str × Nat)
  | [], k, v => [(k, v)]
  | (k', v') :: rest, k, v =>
    if k' = k then (k', v) :: rest else (k', v') :: upsert rest k v

/-- Numeric value of a digit string. -/
def numValue (s : Str) : Nat :=
  s.foldl (fun acc c => acc * 10 + (c.toNat - 48)) 0

/-- Whether a key is an array index in the JS sense: the canonical decimal
form (no leading zero except `0` itself) of an integer below `2^32 - 1`.
Such keys are enumerated before all string keys, in ascending numeric
order. -/
def isArrayIndex (s : Str) : Bool :=
  !s.isEmpty && s.all isDigitC &&
    (decide (s = ['0']) || !decide (s.headD '0' = '0')) &&
    decide (numValue s < 4294967295)

/-- Stable insertion (ascending numeric key order) for `sortByNum`. -/
def insertByNum (e : Str × Nat) : List (Str × Nat) → List (Str × Nat)
  | [] => [e]
  | f :: rest =>
    if numValue e.1 < numValue f.1 then e :: f :: rest
    else f :: insertByNum e rest

/-- Stable sort of entries by ascending numeric key value. -/
def sortByNum : List (Str × Nat) → List (Str × Nat)
  | [] => []
  | e :: rest => insertByNum e (sortByNum rest)

/-- JS object key-enumeration order over an insertion record: array-index-like
keys first in ascending numeric order, then the remaining keys in insertion
order. This is the order object spread (`{...result, totalTokens}`) and
`Object.entries` expose. -/
def jsEntries (l : List (Str × Nat)) : List (Str × Nat) :=
  sortByNum (l.filter (fun e => isArrayIndex e.1))
    ++ l.filter (fun e => !isArrayIndex e.1)

/-- What `countTokensInFiles` returns: the per-file entries of the record (in
object key order) and the `totalTokens` field. -/
structure TokenReport where
  entries : List (Str × Nat)
  totalTokens : Nat
deriving DecidableEq

/-- The loop body of `countTokensInFiles`: `result[filename] = tokens` (JS
record assignment) and `totalTokens += tokens`. -/
def countStep (tok : Str → Nat) (acc : List (Str × Nat) × Nat)
    (file : Str × Str) : List (Str × Nat) × Nat :=
  (upsert acc.1 (basenameNoExt file.1) (fileTokens tok file.2),
    acc.2 + fileTokens tok file.2)

/-- `countTokensInFiles` (src part_008 lines 347-359) over
`fetchAllFileTokens` (lines 328-345): each input file is a (path, content)
pair, consumed in input order. The returned record's entries carry JS
object key-enumeration order (`jsEntries`), which is what the
`{...result, totalTokens}` spread and the later `Object.entries` expose. -/
def countTokensInFiles (tok : Str → Nat) (files : List (Str × Str)) :
    TokenReport :=
  { entries := jsEntries (files.foldl (countStep tok) ([], 0)).1
    totalTokens := (files.foldl (countStep tok) ([], 0)).2 }

/-- Success criterion of a run as the specification states it: the subprocess
exits with code 0 and the resolved output file exists on disk afterwards. -/
def exitZeroAndOutputExists (env : Env) (fs : FS) (c : RepomixConfig)
    (outputPath : Str) : Bool :=
  let b := buildRepomixArgs env fs c outputPath
  match env.run b.args with
  | .throws => false
  | .exits success created => success && fsExists (applyCreated fs created) b.outputPath

/-- An environment whose subprocess spawns never throw (they may still fail
with a nonzero exit). -/
def spawnNeverThrows (env : Env) : Prop :=
  ∀ args, env.run args ≠ SpawnOutcome.throws

/-- Environment for witnesses: parsing yields nothing useful, every spawn
exits successfully without creating files. -/
def envExitsClean : Env where
  parseJsonc := fun _ => Jsonish.undefinedV
  run := fun _ => SpawnOutcome.exits true []

/-- Environment for witnesses: every spawn exits with a nonzero code. -/
def envExitsFail : Env where
  parseJsonc := fun _ => Jsonish.undefinedV
  run := fun _ => SpawnOutcome.exits false []

/-- Environment for counterexamples: every spawn throws (for example, the
repomix executable is not installed). -/
def envThrows : Env where
  parseJsonc := fun _ => Jsonish.undefinedV
  run := fun _ => SpawnOutcome.throws

/-- Environment for witnesses: every spawn exits successfully and creates
`.hypermix/owner/repo.xml`. -/
def envCreatesRepoXml : Env where
  parseJsonc := fun _ => Jsonish.undefinedV
  run := fun _ => SpawnOutcome.exits true [(".hypermix/owner/repo.xml".data, "x".data)]

/-- Witness mix: a local mix (no remote, no output, no config) with include
patterns, ignore patterns and extra flags all set. -/
def mixLocalFull : RepomixConfig :=
  { includeP := some ["**/*.ts".data]
    ignore := some ["node_modules".data]
    extraFlags := some ["--compress".data] }

/-- Witness mix: remote `owner/repoA` with include patterns also set. -/
def mixRemoteRepoA : RepomixConfig :=
  { remote := some ("owner".data ++ '/' :: "repoA".data)
    includeP := some ["**/*.ts".data] }

/-- Witness inputs for the token-report claims: two files with distinct,
non-numeric basenames. -/
def filesW : List (Str × Str) :=
  [("a/one.xml".data, "hello".data), ("b/two.xml".data, "hi".data)]

/-- Witness inputs for the loop claims: two remote mixes. -/
def mixesW : List RepomixConfig :=
  [{ remote := some ("owner/repoA".data) },
   { remote := some ("owner/repoB".data) }]

/-! ### Basic lemmas about the string primitives -/

theorem splitOnChar_ne_nil (c : Char) (s : Str) : splitOnChar c s ≠ [] := by
  induction s with
  | nil => simp [splitOnChar]
  | cons a rest ih =>
    simp only [splitOnChar]
    split
    · simp
    · cases h : splitOnChar c rest with
      | nil => simp
      | cons w ws => simp

theorem splitOnChar_append (c : Char) (a b : Str) :
    splitOnChar c (a ++ c :: b) = splitOnChar c a ++ splitOnChar c b := by
  induction a with
  | nil => simp [splitOnChar]
  | cons x a' ih =>
    simp only [List.cons_append, splitOnChar, List.append_eq]
    by_cases hx : x = c
    · simp [hx, ih]
    · rw [if_neg hx, if_neg hx, ih]
      cases h : splitOnChar c a' with
      | nil => exact absurd h (splitOnChar_ne_nil c a')
      | cons w ws => simp [h]

theorem splitOnChar_of_all_ne (c : Char) (s : Str)
    (h : s.all (fun x => !decide (x = c)) = true) : splitOnChar c s = [s] := by
  induction s with
  | nil => rfl
  | cons a rest ih =>
    simp only [List.all_cons, Bool.and_eq_true, Bool.not_eq_true',
      decide_eq_false_iff_not] at h
    simp [splitOnChar, h.1, ih (by simpa using h.2)]

theorem isPre_append (l t : Str) : isPre l (l ++ t) = true := by
  induction l with
  | nil => rfl
  | cons a as ih => simp [isPre, ih]

theorem containsSub_cons_of (pat : Str) (x : Char) (s : Str)
    (h : containsSub pat s = true) : containsSub pat (x :: s) = true := by
  simp [containsSub, h]

theorem containsSub_append_of (pat a s : Str) (h : containsSub pat s = true) :
    containsSub pat (a ++ s) = true := by
  induction a with
  | nil => exact h
  | cons x a' ih => exact containsSub_cons_of pat x (a' ++ s) ih

theorem containsSub_of_isPre (pat s : Str) (hs : s ≠ [])
    (h : isPre pat s = true) : containsSub pat s = true := by
  cases s with
  | nil => exact absurd rfl hs
  | cons x rest => simp [containsSub, h]

theorem replaceFirst_append (pat repl rest : Str) (hpat : pat ≠ []) :
    replaceFirst pat repl (pat ++ rest) = repl ++ rest := by
  cases pat with
  | nil => exact absurd rfl hpat
  | cons p ps =>
    simp only [List.cons_append, replaceFirst, List.append_eq]
    rw [if_pos (by simpa using isPre_append (p :: ps) rest)]
    have h2 : ((p :: ps) ++ rest).drop (p :: ps).length = rest := List.drop_left _ _
    simp only [List.cons_append] at h2
    rw [h2]

theorem takeWhile_append_all (p : Char → Bool) (a b : Str) (h : a.all p = true) :
    (a ++ b).takeWhile p = a ++ b.takeWhile p := by
  induction a with
  | nil => rfl
  | cons x a' ih =>
    simp only [List.all_cons, Bool.and_eq_true] at h
    simp [List.takeWhile_cons, h.1, ih h.2]

theorem dropWhile_append_all (p : Char → Bool) (a b : Str) (h : a.all p = true) :
    (a ++ b).dropWhile p = b.dropWhile p := by
  induction a with
  | nil => rfl
  | cons x a' ih =>
    simp only [List.all_cons, Bool.and_eq_true] at h
    simp [List.dropWhile_cons, h.1, ih h.2]

theorem all_mp {p q : Char → Bool} (h : ∀ c, p c = true → q c = true)
    (s : Str) (hs : s.all p = true) : s.all q = true := by
  simp only [List.all_eq_true] at hs ⊢
  exact fun c hc => h c (hs c hc)

/-- Characters that are neither slash nor dot (the shape hypotheses of the
path lemmas). -/
def plainChar (c : Char) : Bool := !decide (c = '/') && !decide (c = '.')

theorem baseRevOf_concat (d b : Str)
    (hb : b.all (fun c => !decide (c = '/')) = true) :
    baseRevOf (d ++ '/' :: b) = b.reverse := by
  unfold baseRevOf
  have hrev : (d ++ '/' :: b).reverse = b.reverse ++ '/' :: d.reverse := by
    simp [List.reverse_append]
  rw [hrev, takeWhile_append_all _ _ _ (by simpa using hb)]
  simp [List.takeWhile_cons]

theorem dirOf_concat (d b : Str)
    (hb : b.all (fun c => !decide (c = '/')) = true) :
    dirOf (d ++ '/' :: b) = d := by
  unfold dirOf
  have hrev : (d ++ '/' :: b).reverse = b.reverse ++ '/' :: d.reverse := by
    simp [List.reverse_append]
  rw [hrev, dropWhile_append_all _ _ _ (by simpa using hb)]
  simp [List.dropWhile_cons]

theorem parsePath_concat (d n x : Str)
    (hn : n.all plainChar = true) (hx : x.all plainChar = true)
    (hne : n ≠ []) :
    parsePath (d ++ '/' :: (n ++ '.' :: x)) = ⟨d, n, '.' :: x⟩ := by
  have hslashn : n.all (fun c => !decide (c = '/')) = true :=
    all_mp (fun c hc => by simpa using (by simpa [plainChar] using hc : _ ∧ _).1) n hn
  have hslashx : x.all (fun c => !decide (c = '/')) = true :=
    all_mp (fun c hc => by simpa using (by simpa [plainChar] using hc : _ ∧ _).1) x hx
  have hdotn : n.all (fun c => !decide (c = '.')) = true :=
    all_mp (fun c hc => by simpa using (by simpa [plainChar] using hc : _ ∧ _).2) n hn
  have hdotx : x.all (fun c => !decide (c = '.')) = true :=
    all_mp (fun c hc => by simpa using (by simpa [plainChar] using hc : _ ∧ _).2) x hx
  have hbslash : (n ++ '.' :: x).all (fun c => !decide (c = '/')) = true := by
    simp only [List.all_append, List.all_cons, Bool.and_eq_true]
    exact ⟨hslashn, by decide, hslashx⟩
  have hbase : baseRevOf (d ++ '/' :: (n ++ '.' :: x)) = (n ++ '.' :: x).reverse :=
    baseRevOf_concat d _ hbslash
  have hdir : dirOf (d ++ '/' :: (n ++ '.' :: x)) = d := dirOf_concat d _ hbslash
  have hbrev : (n ++ '.' :: x).reverse = x.reverse ++ '.' :: n.reverse := by
    simp [List.reverse_append]
  have hafter : ((n ++ '.' :: x).reverse).takeWhile (fun c => !decide (c = '.'))
      = x.reverse := by
    rw [hbrev, takeWhile_append_all _ _ _ (by simpa using hdotx)]
    simp [List.takeWhile_cons]
  have hlenbase : (n ++ '.' :: x).length = n.length + x.length + 1 := by
    simp [List.length_append]
    omega
  have hnpos : 0 < n.length := List.length_pos.mpr hne
  unfold parsePath
  rw [hbase, hdir, List.reverse_reverse, hafter]
  rw [if_pos (by simp [hlenbase]; omega)]
  have harith : (n ++ '.' :: x).length - x.reverse.length - 1 = n.length := by
    simp only [hlenbase, List.length_reverse]
    omega
  rw [harith]
  have htake : (n ++ '.' :: x).take n.length = n := List.take_left n ('.' :: x)
  have hdrop : (n ++ '.' :: x).drop n.length = '.' :: x := List.drop_left n ('.' :: x)
  rw [htake, hdrop]

theorem kebabFilename_concat (d n x : Str)
    (hn : n.all plainChar = true) (hx : x.all plainChar = true)
    (hne : n ≠ []) (hd : d ≠ []) :
    kebabFilename (d ++ '/' :: (n ++ '.' :: x)) = d ++ '/' :: (toKebab n ++ '.' :: x) := by
  unfold kebabFilename
  rw [parsePath_concat d n x hn hx hne]
  unfold pjoin
  rw [if_neg hd, if_neg (by simp)]

/-- When no external config path is set, the resolved output path is the
kebab-normalized join of the root with the explicit output, the
remote-derived name, or the `codebase.xml` default. -/
theorem buildRepomixArgs_outputPath_plain (env : Env) (fs : FS)
    (c : RepomixConfig) (root : Str) (hc : c.config = none)
    (hrc : c.repomixConfig = none) (ho : c.output = none) :
    (buildRepomixArgs env fs c root).outputPath
      = kebabFilename
          (match fullUrlOf c.remote with
           | some u => pjoin root (outputFromGithub u)
           | none => pjoin root ("codebase.xml".data)) := by
  unfold buildRepomixArgs
  simp [configPathOf, hc, hrc, ho, jsTruthy]

theorem fullUrlOf_expands (r : Str) (hne : r ≠ [])
    (hhttp : isPre ("http".data) r = false) :
    fullUrlOf (some r) = some ("https://github.com/".data ++ r) := by
  show (if r = [] then none
    else if isPre ("http".data) r = true then some r
    else some ("https://github.com/".data ++ r)) = _
  rw [if_neg hne, if_neg (by simp [hhttp])]

theorem outputFromGithub_expanded (owner repo : Str)
    (ho : owner.all (fun c => !decide (c = '/')) = true)
    (hr : repo.all (fun c => !decide (c = '/')) = true) :
    outputFromGithub ("https://github.com/".data ++ (owner ++ '/' :: repo))
      = owner ++ '/' :: (repo ++ ".xml".data) := by
  have hdecomp : "https://github.com/".data
      = "https://".data ++ ("github.com".data ++ ['/']) := by decide
  have hcontains : containsSub ("github.com".data)
      ("https://github.com/".data ++ (owner ++ '/' :: repo)) = true := by
    rw [hdecomp, List.append_assoc]
    exact containsSub_append_of _ _ _
      (containsSub_of_isPre _ _ (by simp)
        (by simpa [List.append_assoc] using
          isPre_append ("github.com".data) ('/' :: (owner ++ '/' :: repo))))
  have hrepl : replaceFirst ("https://github.com/".data) []
      ("https://github.com/".data ++ (owner ++ '/' :: repo))
      = owner ++ '/' :: repo := by
    simpa using replaceFirst_append ("https://github.com/".data) []
      (owner ++ '/' :: repo) (by decide)
  have hsplit : splitOnChar '/' (owner ++ '/' :: repo) = [owner, repo] := by
    rw [splitOnChar_append, splitOnChar_of_all_ne _ _ ho,
      splitOnChar_of_all_ne _ _ hr]
    rfl
  unfold outputFromGithub
  rw [hcontains, hrepl, hsplit]
  simp

/-! ### Claim C9 -/

/-- Claim C9: for every mix with no remote repository, no explicit output and
no external config path (include patterns, ignore patterns and extra flags
arbitrary), the resolved output path is `<globalOutputRoot>/codebase.xml`. -/
theorem c9_default_output_is_codebase_xml (env : Env) (fs : FS)
    (c : RepomixConfig) (root : Str)
    (hrem : c.remote = none) (hout : c.output = none)
    (hcfg : c.config = none) (hrc : c.repomixConfig = none)
    (h1 : root ≠ []) (h2 : root.getLastD ' ' ≠ '/') :
    (buildRepomixArgs env fs c root).outputPath = root ++ "/codebase.xml".data := by
  rw [buildRepomixArgs_outputPath_plain env fs c root hcfg hrc hout, hrem]
  show kebabFilename (pjoin root ("codebase.xml".data)) = _
  have hp : pjoin root ("codebase.xml".data)
      = root ++ '/' :: ("codebase".data ++ '.' :: "xml".data) := by
    unfold pjoin
    rw [if_neg h1, if_neg (by decide)]
    rfl
  rw [hp, kebabFilename_concat root ("codebase".data) ("xml".data)
    (by decide) (by decide) (by decide) h1]
  rfl

/-- Witness for C9 at the default root `.hypermix`, on a local mix with
include patterns, ignore patterns and extra flags all set. -/
theorem c9_default_output_is_codebase_xml_witness :
    (mixLocalFull.remote = none ∧ mixLocalFull.output = none ∧
      ".hypermix".data ≠ [] ∧ (".hypermix".data).getLastD ' ' ≠ '/') ∧
      (buildRepomixArgs envExitsClean [] mixLocalFull
          (".hypermix".data)).outputPath
        = ".hypermix".data ++ "/codebase.xml".data :=
  ⟨⟨rfl, rfl, by decide, by decide⟩,
    c9_default_output_is_codebase_xml envExitsClean [] mixLocalFull
      (".hypermix".data) rfl rfl rfl rfl (by decide) (by decide)⟩

/-! ### Claim C10 -/

/-- Claim C10: `kebabFilename` rewrites only the base name (without
extension) of a path to kebab form; the directory part and the extension are
returned unchanged. -/
theorem c10_kebab_rewrites_only_basename (d n x : Str)
    (hn : n.all plainChar = true) (hx : x.all plainChar = true)
    (hne : n ≠ []) (hd : d ≠ []) :
    kebabFilename (d ++ '/' :: (n ++ '.' :: x)) = d ++ '/' :: (toKebab n ++ '.' :: x) :=
  kebabFilename_concat d n x hn hx hne hd

/-- Witness for C10: in the remote-derived path `.hypermix/owner/repoA.xml`
the `owner` directory segment survives verbatim and only `repoA` is
normalized (to `repo-a`). -/
theorem c10_kebab_rewrites_only_basename_witness :
    (("repoA".data).all plainChar = true ∧ ("xml".data).all plainChar = true ∧
      "repoA".data ≠ [] ∧ ".hypermix/owner".data ≠ []) ∧
      kebabFilename (".hypermix/owner".data ++ '/' :: ("repoA".data ++ '.' :: "xml".data))
        = ".hypermix/owner".data ++ '/' :: (toKebab ("repoA".data) ++ '.' :: "xml".data) :=
  ⟨⟨by decide, by decide, by decide, by decide⟩,
    c10_kebab_rewrites_only_basename (".hypermix/owner".data) ("repoA".data)
      ("xml".data) (by decide) (by decide) (by decide) (by decide)⟩

/-! ### Claim C5 -/

/-- Counterexample to claim C5 as stated: the remote `owner/repoA` does not
resolve to `owner/repoA.xml`; the repo part is kebab-normalized to
`owner/repo-a.xml`. -/
theorem c5_counterexample_repoA_is_kebabbed :
    (buildRepomixArgs envExitsClean []
        { remote := some ("owner/repoA".data) } (".hypermix".data)).outputPath
      = ".hypermix/owner/repo-a.xml".data ∧
    (buildRepomixArgs envExitsClean []
        { remote := some ("owner/repoA".data) } (".hypermix".data)).outputPath
      ≠ ".hypermix/owner/repoA.xml".data := by
  constructor
  · decide
  · decide

/-- Claim C5 (amended): for every mix with a remote `owner/repo` set (the
identifier not `http`-prefixed), no explicit output and no external config
(include patterns, ignore patterns and extra flags arbitrary), the resolved
output path is `<globalOutputRoot>/owner/<kebab(repo)>.xml` — the repo file
name passes through the kebab normalizer. -/
theorem c5_remote_output_owner_slash_kebab_repo (env : Env) (fs : FS)
    (c : RepomixConfig) (owner repo root : Str)
    (hrem : c.remote = some (owner ++ '/' :: repo))
    (hout : c.output = none) (hcfg : c.config = none)
    (hrc : c.repomixConfig = none)
    (ho : owner.all (fun c => !decide (c = '/')) = true) (hone : owner ≠ [])
    (hr : repo.all plainChar = true) (hrne : repo ≠ [])
    (hhttp : isPre ("http".data) (owner ++ '/' :: repo) = false)
    (hroot : root ≠ []) (hroot2 : root.getLastD ' ' ≠ '/') :
    (buildRepomixArgs env fs c root).outputPath
      = root ++ '/' :: (owner ++ '/' :: (toKebab repo ++ '.' :: "xml".data)) := by
  rw [buildRepomixArgs_outputPath_plain env fs c root hcfg hrc hout, hrem]
  have hrs : repo.all (fun c => !decide (c = '/')) = true :=
    all_mp (fun c hc => by
      simpa using (by simpa [plainChar] using hc : _ ∧ _).1) repo hr
  rw [fullUrlOf_expands (owner ++ '/' :: repo) (by simp) hhttp]
  show kebabFilename (pjoin root
    (outputFromGithub ("https://github.com/".data ++ (owner ++ '/' :: repo)))) = _
  rw [outputFromGithub_expanded owner repo ho hrs]
  have hp : pjoin root (owner ++ '/' :: (repo ++ ".xml".data))
      = (root ++ '/' :: owner) ++ '/' :: (repo ++ '.' :: "xml".data) := by
    unfold pjoin
    rw [if_neg hroot, if_neg (by simp)]
    have hxml : ".xml".data = '.' :: "xml".data := by decide
    simp [hxml]
  rw [hp, kebabFilename_concat (root ++ '/' :: owner) repo ("xml".data)
    hr (by decide) hrne (by simp [hroot])]
  simp

/-- Witness for the amended C5 at remote `owner/repoA`, root `.hypermix`,
with include patterns also set on the mix. -/
theorem c5_remote_output_owner_slash_kebab_repo_witness :
    (mixRemoteRepoA.remote = some ("owner".data ++ '/' :: "repoA".data) ∧
      ("owner".data).all (fun c => !decide (c = '/')) = true ∧
      "owner".data ≠ [] ∧ ("repoA".data).all plainChar = true ∧
      "repoA".data ≠ [] ∧
      isPre ("http".data) ("owner".data ++ '/' :: "repoA".data) = false ∧
      ".hypermix".data ≠ [] ∧ (".hypermix".data).getLastD ' ' ≠ '/') ∧
      (buildRepomixArgs envExitsClean [] mixRemoteRepoA
          (".hypermix".data)).outputPath
        = ".hypermix".data ++ '/' :: ("owner".data ++ '/' ::
            (toKebab ("repoA".data) ++ '.' :: "xml".data)) :=
  ⟨⟨rfl, by decide, by decide, by decide, by decide, by decide, by decide,
      by decide⟩,
    c5_remote_output_owner_slash_kebab_repo envExitsClean [] mixRemoteRepoA
      ("owner".data) ("repoA".data) (".hypermix".data) rfl rfl rfl rfl
      (by decide) (by decide) (by decide) (by decide) (by decide) (by decide)
      (by decide)⟩

/-! ### Claim C1 -/

/-- Claim C1 evaluated on the code: even when an external repomix config path
is set, the built argument list does contain the `--output` flag — the source
appends it unconditionally ("Always add the output path"), contradicting the
claim (and the repository's own tests, which assert its absence). -/
theorem c1_output_flag_present_despite_config (env : Env) (fs : FS)
    (c : RepomixConfig) (root : Str)
    (h : (jsTruthy (configPathOf c)).isSome = true) :
    "--output".data ∈ (buildRepomixArgs env fs c root).args := by
  unfold buildRepomixArgs
  simp

/-- Witness for C1 at the input of the repository's own test
(`repomixConfig: './repomix.config.json'`). -/
theorem c1_output_flag_present_despite_config_witness :
    (jsTruthy (configPathOf
        { repomixConfig := some ("./repomix.config.json".data) })).isSome = true ∧
      "--output".data ∈ (buildRepomixArgs envExitsClean []
        { repomixConfig := some ("./repomix.config.json".data) }
        ("./output".data)).args :=
  ⟨by decide,
    c1_output_flag_present_despite_config envExitsClean []
      { repomixConfig := some ("./repomix.config.json".data) } ("./output".data)
      (by decide)⟩

/-! ### Claim C4 -/

/-- Counterexample to claim C4 as stated: a mix whose `config` field names a
file that does not exist on disk is not failed at validation — the external
tool is spawned exactly once for it (only the `repomixConfig` field is
validated). -/
theorem c4_counterexample_config_field_not_validated :
    fsExists [] ("missing.json".data) = false ∧
      ((runRepomix envExitsFail [] { config := some ("missing.json".data) }
        (".hypermix".data)).2.1).length = 1 := by
  constructor
  · decide
  · decide

/-- Claim C4 (amended): for a mix whose `repomixConfig` field names a file
that does not exist on disk, `runRepomix` fails during validation and never
spawns the subprocess (the `config` field is not validated). -/
theorem c4_missing_repomix_config_fails_without_spawn (env : Env) (fs : FS)
    (c : RepomixConfig) (out rc : Str)
    (h1 : jsTruthy c.repomixConfig = some rc) (h2 : fsExists fs rc = false) :
    runRepomix env fs c out = (Except.ok none, [], fs) := by
  have hmiss : repomixConfigMissing fs c = true := by
    unfold repomixConfigMissing
    rw [h1]
    show (!fsExists fs rc) = true
    rw [h2]
    rfl
  unfold runRepomix
  rw [if_pos hmiss]

/-- Witness for the amended C4: `repomixConfig: 'missing.json'` over an empty
file system fails with no subprocess invocation. -/
theorem c4_missing_repomix_config_fails_without_spawn_witness :
    (jsTruthy ({ repomixConfig := some ("missing.json".data) } :
        RepomixConfig).repomixConfig = some ("missing.json".data) ∧
      fsExists [] ("missing.json".data) = false) ∧
      runRepomix envExitsClean [] { repomixConfig := some ("missing.json".data) }
        (".hypermix".data) = (Except.ok none, [], []) :=
  ⟨⟨by decide, by decide⟩,
    c4_missing_repomix_config_fails_without_spawn envExitsClean []
      { repomixConfig := some ("missing.json".data) } (".hypermix".data)
      ("missing.json".data) (by decide) (by decide)⟩

/-! ### Claim C3 -/

/-- Claim C3: for a mix that passes validation, `runRepomix` resolves with a
success outcome exactly when the subprocess exits with code 0 and the
resolved output file exists afterwards (in particular a zero exit with no
output file is a failure). -/
theorem c3_success_iff_exit_zero_and_output_exists (env : Env) (fs : FS)
    (c : RepomixConfig) (out : Str)
    (h1 : repomixConfigMissing fs c = false) (h2 : extraFlagsInvalid c = false) :
    (∃ r, (runRepomix env fs c out).1 = Except.ok (some r)) ↔
      exitZeroAndOutputExists env fs c out = true := by
  unfold runRepomix exitZeroAndOutputExists
  rw [if_neg (by simp [h1]), if_neg (by simp [h2])]
  cases hrun : env.run (buildRepomixArgs env fs c out).args with
  | throws => simp [hrun]
  | exits s cr =>
    cases s
    · simp [hrun]
    · by_cases hex : fsExists (applyCreated fs cr)
        (buildRepomixArgs env fs c out).outputPath <;> simp [hrun, hex]

/-- Witness for C3: a mix on remote `owner/repo` under an environment whose
spawn succeeds and creates `.hypermix/owner/repo.xml` yields a success
outcome. -/
theorem c3_success_iff_exit_zero_and_output_exists_witness :
    (repomixConfigMissing [] { remote := some ("owner/repo".data) } = false ∧
      extraFlagsInvalid { remote := some ("owner/repo".data) } = false) ∧
      (∃ r, (runRepomix envCreatesRepoXml [] { remote := some ("owner/repo".data) }
        (".hypermix".data)).1 = Except.ok (some r)) :=
  ⟨⟨by decide, by decide⟩,
    (c3_success_iff_exit_zero_and_output_exists envCreatesRepoXml []
      { remote := some ("owner/repo".data) } (".hypermix".data)
      (by decide) (by decide)).mpr (by decide)⟩

/-! ### Claim C2 -/

/-- Counterexample to claim C2 as stated: when spawning the external tool
throws (for example the executable is missing), the error is not caught at
the mix boundary — the whole per-mix loop aborts with the error instead of
completing with a summary. -/
theorem c2_counterexample_throwing_spawn_aborts_run :
    (processMixes envThrows []
      [{ remote := some ("owner/repoA".data) },
       { remote := some ("owner/repoB".data) }]
      (".hypermix".data)).1 = Except.error () := rfl

theorem runRepomix_ok_of_no_throw (env : Env) (henv : spawnNeverThrows env)
    (fs : FS) (c : RepomixConfig) (out : Str) :
    ∃ r, (runRepomix env fs c out).1 = Except.ok r := by
  unfold runRepomix
  by_cases h1 : repomixConfigMissing fs c
  · simp [h1]
  · by_cases h2 : extraFlagsInvalid c
    · simp [h1, h2]
    · simp only [h1, h2, if_false, Bool.false_eq_true]
      cases hrun : env.run (buildRepomixArgs env fs c out).args with
      | throws => exact absurd hrun (henv _)
      | exits s cr =>
        cases s
        · simp [hrun]
        · by_cases hex : fsExists (applyCreated fs cr)
            (buildRepomixArgs env fs c out).outputPath <;> simp [hrun, hex]

/-- Claim C2 (amended): every failure the code represents as a value —
validation failure, unreadable external config, nonzero exit, missing output
file — is converted to a per-mix failed outcome and the loop continues to
completion; but an exception thrown while spawning the external tool
propagates uncaught and aborts the run (see the counterexample). Under
never-throwing spawns the pipeline always completes. -/
theorem c2_pipeline_completes_when_spawns_exit (env : Env)
    (henv : spawnNeverThrows env) (fs : FS) (configs : List RepomixConfig)
    (out : Str) :
    ∃ rs, (processMixes env fs configs out).1 = Except.ok rs := by
  induction configs generalizing fs with
  | nil => exact ⟨[], rfl⟩
  | cons c rest ih =>
    obtain ⟨r, hr⟩ := runRepomix_ok_of_no_throw env henv fs c out
    rcases hrun : runRepomix env fs c out with ⟨res, spawns, fs'⟩
    have hres : res = Except.ok r := by
      rw [hrun] at hr
      exact hr
    subst hres
    obtain ⟨rs, hrs⟩ := ih fs'
    rcases hrec : processMixes env fs' rest out with ⟨res2, fs''⟩
    have hres2 : res2 = Except.ok rs := by
      rw [hrec] at hrs
      exact hrs
    subst hres2
    simp only [processMixes, hrun, hrec]
    cases r <;> exact ⟨_, rfl⟩

/-- Witness for the amended C2: under an environment with clean exits the
two-mix pipeline completes with a summary. -/
theorem c2_pipeline_completes_when_spawns_exit_witness :
    spawnNeverThrows envExitsClean ∧
      ∃ rs, (processMixes envExitsClean []
        [{ remote := some ("owner/repoA".data) },
         { remote := some ("owner/repoB".data) }]
        (".hypermix".data)).1 = Except.ok rs :=
  ⟨(fun _ h => nomatch h),
    c2_pipeline_completes_when_spawns_exit envExitsClean (fun _ h => nomatch h)
      [] [{ remote := some ("owner/repoA".data) },
          { remote := some ("owner/repoB".data) }] (".hypermix".data)⟩

/-! ### Claim C6 -/

theorem chunkedAux_sum : ∀ (fuel : Nat) (s : Str), s.length ≤ fuel →
    ((chunkedAux fuel s).map List.length).sum = s.length := by
  intro fuel
  induction fuel with
  | zero =>
    intro s h
    have hs : s = [] := List.eq_nil_of_length_eq_zero (Nat.le_zero.mp h)
    subst hs
    rfl
  | succ n ih =>
    intro s h
    cases s with
    | nil => rfl
    | cons c rest =>
      simp only [chunkedAux, List.map_cons, List.sum_cons, List.length_take]
      rw [ih ((c :: rest).drop 8192)
        (by simp only [List.length_drop, List.length_cons] at h ⊢; omega)]
      simp only [List.length_drop, List.length_cons]
      omega

/-- The chunking of `readFileStreamChunks` loses no characters: the chunk
lengths sum to the length of the content. -/
theorem chunked_sum (s : Str) : ((chunked s).map List.length).sum = s.length :=
  chunkedAux_sum s.length s (Nat.le_refl _)

/-- Under the 1-token-per-character tokenizer, the chunked per-file count is
the character count. -/
theorem fileTokens_length (content : Str) :
    fileTokens (fun s => s.length) content = content.length := by
  unfold fileTokens
  exact chunked_sum content

theorem upsert_of_not_mem (l : List (Str × Nat)) (k : Str) (v : Nat)
    (h : k ∉ l.map Prod.fst) : upsert l k v = l ++ [(k, v)] := by
  induction l with
  | nil => rfl
  | cons e rest ih =>
    obtain ⟨k', v'⟩ := e
    simp only [List.map_cons, List.mem_cons] at h
    push_neg at h
    simp only [upsert]
    rw [if_neg (fun hh : k' = k => h.1 hh.symm), ih h.2]
    simp

/-- The fold of `countTokensInFiles`, run from any accumulator whose keys are
disjoint from the (duplicate-free) incoming basenames: entries append in
input order and the running total adds every file's tokens. -/
theorem countTokens_fold (tok : Str → Nat) (files : List (Str × Str))
    (acc : List (Str × Nat) × Nat)
    (hfresh : ∀ f ∈ files, basenameNoExt f.1 ∉ acc.1.map Prod.fst)
    (hnodup : (files.map (fun f => basenameNoExt f.1)).Nodup) :
    files.foldl (countStep tok) acc
      = (acc.1 ++ files.map (fun f => (basenameNoExt f.1, fileTokens tok f.2)),
         acc.2 + (files.map (fun f => fileTokens tok f.2)).sum) := by
  induction files generalizing acc with
  | nil => simp
  | cons f rest ih =>
    simp only [List.foldl_cons, countStep]
    rw [upsert_of_not_mem _ _ _ (hfresh f (by simp))]
    simp only [List.map_cons, List.nodup_cons] at hnodup
    rw [ih (acc.1 ++ [(basenameNoExt f.1, fileTokens tok f.2)],
        acc.2 + fileTokens tok f.2)
      (by
        intro g hg
        simp only [List.map_append, List.mem_append, List.map_cons]
        push_neg
        refine ⟨hfresh g (List.mem_cons_of_mem f hg), ?_⟩
        simp only [List.map_nil, List.mem_singleton]
        intro hEq
        exact hnodup.1 (by
          rw [← hEq]
          exact List.mem_map_of_mem (fun f => basenameNoExt f.1) hg))
      hnodup.2]
    simp [List.append_assoc, Nat.add_assoc, List.sum_cons]

theorem insertByNum_perm (e : Str × Nat) (l : List (Str × Nat)) :
    List.Perm (insertByNum e l) (e :: l) := by
  induction l with
  | nil => exact List.Perm.refl _
  | cons f rest ih =>
    simp only [insertByNum]
    split
    · exact List.Perm.refl _
    · exact (ih.cons f).trans (List.Perm.swap e f rest)

theorem sortByNum_perm (l : List (Str × Nat)) : List.Perm (sortByNum l) l := by
  induction l with
  | nil => exact List.Perm.refl _
  | cons e rest ih => exact (insertByNum_perm e (sortByNum rest)).trans (ih.cons e)

/-- JS key-enumeration order is a permutation of insertion order. -/
theorem jsEntries_perm (l : List (Str × Nat)) : List.Perm (jsEntries l) l := by
  unfold jsEntries
  exact ((sortByNum_perm _).append_right _).trans
    (List.filter_append_perm (fun e => isArrayIndex e.1) l)

/-- When no key looks like an array index, JS enumeration order is exactly
insertion order. -/
theorem jsEntries_of_no_index (l : List (Str × Nat))
    (h : ∀ e ∈ l, isArrayIndex e.1 = false) : jsEntries l = l := by
  unfold jsEntries
  have h1 : l.filter (fun e => isArrayIndex e.1) = [] := by
    rw [List.filter_eq_nil_iff]
    intro e he
    simp [h e he]
  have h2 : l.filter (fun e => !isArrayIndex e.1) = l :=
    List.filter_eq_self.mpr (fun e he => by simp [h e he])
  rw [h1, h2]
  rfl

/-- Counterexample to claim C6 as stated: two output files with the same
basename (`a/repo.xml` and `b/repo.xml`) collide on the record key `repo`, so
the reported `totalTokens` (7) is not the sum of the per-file entries in the
returned report (2). -/
theorem c6_counterexample_duplicate_basenames :
    (countTokensInFiles (fun s => s.length)
        [("a/repo.xml".data, "hello".data), ("b/repo.xml".data, "hi".data)]).totalTokens
      = 7 ∧
    ((countTokensInFiles (fun s => s.length)
        [("a/repo.xml".data, "hello".data), ("b/repo.xml".data, "hi".data)]).entries.map
          Prod.snd).sum = 2 := by
  constructor
  · decide
  · decide

/-- Claim C6 (amended): when the basenames of the output files are pairwise
distinct, the report carries exactly one entry per file — the tokenizer sum
over that file's streamed chunks (so K copies of a 5-character string under
the 1-token-per-character tokenizer count exactly 5K) — listed in JS
key-enumeration order (a permutation of the input files), and the reported
total equals the sum of the per-file entries of the report. -/
theorem c6_tokens_per_file_and_total (tok : Str → Nat) (files : List (Str × Str))
    (hnodup : (files.map (fun f => basenameNoExt f.1)).Nodup) :
    (countTokensInFiles tok files).entries
        = jsEntries (files.map (fun f => (basenameNoExt f.1, fileTokens tok f.2))) ∧
      List.Perm (countTokensInFiles tok files).entries
        (files.map (fun f => (basenameNoExt f.1, fileTokens tok f.2))) ∧
      (countTokensInFiles tok files).totalTokens
        = ((countTokensInFiles tok files).entries.map Prod.snd).sum ∧
      ∀ (K : Nat) (w : Str), w.length = 5 →
        fileTokens (fun s => s.length) (List.join (List.replicate K w)) = 5 * K := by
  have hfold := countTokens_fold tok files ([], 0) (by simp) hnodup
  have hentries : (countTokensInFiles tok files).entries
      = jsEntries (files.map (fun f => (basenameNoExt f.1, fileTokens tok f.2))) := by
    show jsEntries (files.foldl (countStep tok) ([], 0)).1 = _
    rw [hfold]
    simp
  refine ⟨hentries, ?_, ?_, ?_⟩
  · rw [hentries]
    exact jsEntries_perm _
  · have htot : (countTokensInFiles tok files).totalTokens
        = (files.map (fun f => fileTokens tok f.2)).sum := by
      show (files.foldl (countStep tok) ([], 0)).2 = _
      rw [hfold]
      simp
    have hperm2 : List.Perm
        ((countTokensInFiles tok files).entries.map Prod.snd)
        ((files.map (fun f => (basenameNoExt f.1, fileTokens tok f.2))).map
          Prod.snd) := by
      rw [hentries]
      exact (jsEntries_perm _).map Prod.snd
    rw [htot, hperm2.sum_eq, List.map_map]
    rfl
  · intro K w hw
    rw [fileTokens_length]
    simp [List.length_join, List.map_replicate, List.sum_replicate, hw,
      smul_eq_mul, Nat.mul_comm]

/-- Witness for the amended C6: two distinct-basename files of 5 and 2
characters report one entry per file. -/
theorem c6_tokens_per_file_and_total_witness :
    ((filesW.map (fun f => basenameNoExt f.1)).Nodup) ∧
      (countTokensInFiles (fun s => s.length) filesW).entries
        = jsEntries (filesW.map
            (fun f => (basenameNoExt f.1, fileTokens (fun s => s.length) f.2))) :=
  ⟨by decide,
    (c6_tokens_per_file_and_total (fun s => s.length) filesW (by decide)).1⟩

/-! ### Claim C8 -/

/-- The report accumulated by the per-mix loop is exactly the in-order list
of per-mix outcomes with the failures dropped. -/
theorem processMixes_eq_filterMap (env : Env) (fs : FS)
    (configs : List RepomixConfig) (out : Str) :
    (processMixes env fs configs out).1
      = Except.map (fun l => l.filterMap id)
          (runAllOutcomes env fs configs out).1 := by
  induction configs generalizing fs with
  | nil => rfl
  | cons c rest ih =>
    rcases hrun : runRepomix env fs c out with ⟨res, spawns, fs'⟩
    cases res with
    | error u =>
      cases u
      simp [processMixes, runAllOutcomes, hrun, Except.map]
    | ok r =>
      rcases hrec : runAllOutcomes env fs' rest out with ⟨res2, fs''⟩
      have ihh := ih fs'
      rw [hrec] at ihh
      rcases hproc : processMixes env fs' rest out with ⟨resp, fsp⟩
      rw [hproc] at ihh
      simp only at ihh
      simp only [processMixes, runAllOutcomes, hrun, hrec, hproc]
      cases res2 with
      | error u2 =>
        cases u2
        simp only [Except.map] at ihh
        rw [ihh]
        simp [Except.map]
      | ok rs =>
        simp only [Except.map] at ihh
        rw [ihh]
        cases r <;> simp [List.filterMap_cons, Except.map]

/-- Counterexample to claim C8 as stated: an output file whose basename is an
array-index-like string (`2048`) is hoisted to the front of the JS record's
key-enumeration order, so the per-file token report does not list files in
original input order. -/
theorem c8_counterexample_numeric_basename_hoisted :
    ((countTokensInFiles (fun s => s.length)
        [("a/zzz.xml".data, "hello".data), ("b/2048.xml".data, "hi".data)]).entries.map
          Prod.fst)
      = ["2048".data, "zzz".data] ∧
    ((countTokensInFiles (fun s => s.length)
        [("a/zzz.xml".data, "hello".data), ("b/2048.xml".data, "hi".data)]).entries.map
          Prod.fst)
      ≠ ["zzz".data, "2048".data] := by
  constructor
  · decide
  · decide

/-- Claim C8 (amended): the reported outcome list is exactly the successful
mixes in their original relative input order; the per-file token report lists
the files in JS key-enumeration order — array-index-like basenames hoisted
first in ascending numeric order, the rest in input order — which coincides
with original input order whenever no basename looks like an array index. -/
theorem c8_reports_preserve_input_order (env : Env) (fs : FS)
    (configs : List RepomixConfig) (out : Str) (tok : Str → Nat)
    (files : List (Str × Str))
    (hnodup : (files.map (fun f => basenameNoExt f.1)).Nodup) :
    (processMixes env fs configs out).1
        = Except.map (fun l => l.filterMap id)
            (runAllOutcomes env fs configs out).1 ∧
      (countTokensInFiles tok files).entries
        = jsEntries (files.map (fun f => (basenameNoExt f.1, fileTokens tok f.2))) ∧
      ((∀ f ∈ files, isArrayIndex (basenameNoExt f.1) = false) →
        (countTokensInFiles tok files).entries.map Prod.fst
          = files.map (fun f => basenameNoExt f.1)) := by
  have hfold := countTokens_fold tok files ([], 0) (by simp) hnodup
  have hentries : (countTokensInFiles tok files).entries
      = jsEntries (files.map (fun f => (basenameNoExt f.1, fileTokens tok f.2))) := by
    show jsEntries (files.foldl (countStep tok) ([], 0)).1 = _
    rw [hfold]
    simp
  refine ⟨processMixes_eq_filterMap env fs configs out, hentries, ?_⟩
  intro hnoidx
  rw [hentries, jsEntries_of_no_index _ (by
    intro e he
    obtain ⟨f, hf, rfl⟩ := List.mem_map.mp he
    exact hnoidx f hf), List.map_map]
  rfl

/-- Witness for the amended C8: two mixes that both fail yield the
(order-trivially) filtered outcome list; two distinct non-numeric-basename
files list in input order. -/
theorem c8_reports_preserve_input_order_witness :
    ((filesW.map (fun f => basenameNoExt f.1)).Nodup) ∧
      ((processMixes envExitsFail [] mixesW (".hypermix".data)).1
          = Except.map (fun l => l.filterMap id)
              (runAllOutcomes envExitsFail [] mixesW (".hypermix".data)).1 ∧
        (countTokensInFiles (fun s => s.length) filesW).entries
          = jsEntries (filesW.map
              (fun f => (basenameNoExt f.1, fileTokens (fun s => s.length) f.2))) ∧
        ((∀ f ∈ filesW, isArrayIndex (basenameNoExt f.1) = false) →
          (countTokensInFiles (fun s => s.length) filesW).entries.map Prod.fst
            = filesW.map (fun f => basenameNoExt f.1))) :=
  ⟨by decide,
    c8_reports_preserve_input_order envExitsFail [] mixesW (".hypermix".data)
      (fun s => s.length) filesW (by decide)⟩

/-! ### Claim C7 -/

end Hypermix
